import Mathlib

/-!
Verification development for the git-notes-app note codec and catalog
(src/v1/main.go).  Strings are modelled as lists of characters;
Go standard-library behaviour (fmt padding, strings.Split / Join /
ReplaceAll / TrimSuffix / HasPrefix, bufio line scanning, time.Parse
of the "2006-01-02" layout) is embedded operation by operation.
-/

namespace GitNotes

/-- Character strings, modelled as lists of characters. -/
abbrev Str := List Char

/-- Calendar date at day resolution.  `time.Time` values produced by
`time.Parse("2006-01-02", _)` are midnight UTC instants, so they are
in bijection with their (year, month, day) triple, and `Equal` /
`After` on them coincide with equality / lexicographic order here. -/
structure Date where
  year : Nat
  month : Nat
  day : Nat
deriving DecidableEq, Repr

/-- The `Note` record from main.go. -/
structure Note where
  title : Str
  tags : List Str
  content : Str
  created : Date
deriving DecidableEq, Repr

/-! ## Go formatting primitives -/

/-- One decimal digit character. -/
def digitC (n : Nat) : Char := Nat.digitChar n

/-- Decimal digits of `n`, least significant first.  `fuel` bounds the
recursion; it is always called with `fuel ≥ n`. -/
def natDigitsRevGo : Nat → Nat → List Char
  | 0, _ => []
  | f + 1, n => if n = 0 then [] else digitC (n % 10) :: natDigitsRevGo f (n / 10)

/-- Decimal digits of `n`, least significant first. -/
def natDigitsRev (n : Nat) : List Char := natDigitsRevGo n n

/-- Decimal digit string of `n`, most significant first (`"0"` for 0),
as produced by Go `fmt` for a non-negative integer. -/
def natDigits (n : Nat) : List Char :=
  if n = 0 then ['0'] else (natDigitsRev n).reverse

/-- Go `fmt.Sprintf("%0<w>d", n)` for non-negative `n`: the decimal
digits, zero-padded on the left to width `w` (wider numbers are
printed in full). -/
def fmtPad (w n : Nat) : List Char :=
  List.replicate (w - (natDigits n).length) '0' ++ natDigits n

/-! ## The encoder (saveNote, main.go lines 158-175) -/

/-- `strings.ReplaceAll(title, " ", "-")`: the filename slug. -/
def slugify (t : Str) : Str := t.map fun c => if c = ' ' then '-' else c

/-- The filename `fmt.Sprintf("%04d-%02d-%02d-%s.md", ...)` built by
`saveNote`. -/
def encodeFileName (n : Note) : Str :=
  fmtPad 4 n.created.year ++ '-' ::
  (fmtPad 2 n.created.month ++ '-' ::
  (fmtPad 2 n.created.day ++ '-' ::
  (slugify n.title ++ (".md").data)))

/-- The document `fmt.Sprintf("# %s\n\nTags: %s\n\n%s", ...)` built by
`saveNote`; tags are joined with `strings.Join(tags, ", ")`. -/
def encodeContent (n : Note) : Str :=
  ("# ").data ++ n.title ++ ('\n' :: '\n' :: ("Tags: ").data) ++
    List.intercalate (", ").data n.tags ++ ('\n' :: '\n' :: n.content)

/-! ## Go string scanning primitives used by the decoder -/

/-- `bufio.Scanner` line tokens with the default `ScanLines` split
function: lines are separated by `'\n'`, one carriage return
immediately before the newline (or at end of input) is dropped, the
final unterminated line is returned, and empty input yields no lines.
(The scanner's 64 KiB token bound is not modelled.) -/
def goLines : List Char → List (List Char)
  | [] => []
  | '\r' :: '\n' :: rest => [] :: goLines rest
  | '\n' :: rest => [] :: goLines rest
  | c :: rest =>
    match goLines rest with
    | [] => if c = '\r' then [[]] else [[c]]
    | l :: ls => (c :: l) :: ls

/-- `strings.Split(s, ", ")`: split at each leftmost non-overlapping
occurrence of the two-character separator. -/
def splitCommaSpace : List Char → List (List Char)
  | [] => [[]]
  | [c] => [[c]]
  | c1 :: c2 :: rest =>
    if c1 = ',' ∧ c2 = ' ' then [] :: splitCommaSpace rest
    else
      match splitCommaSpace (c2 :: rest) with
      | [] => [[c1]]
      | h :: t => (c1 :: h) :: t

/-- Whether `", "` occurs in `s` (so `splitCommaSpace` would cut it). -/
def hasCommaSpace : List Char → Bool
  | [] => false
  | [_] => false
  | c1 :: c2 :: rest => if c1 = ',' ∧ c2 = ' ' then true else hasCommaSpace (c2 :: rest)

/-- `strings.TrimSuffix`. -/
def trimSuffix (suf l : Str) : Str :=
  if suf.isSuffixOf l then l.take (l.length - suf.length) else l

/-- `strings.ReplaceAll(t, "-", " ")`. -/
def unslugify (t : Str) : Str := t.map fun c => if c = '-' then ' ' else c

/-! ## Go `time.Parse("2006-01-02", s)` -/

/-- Leap years as in Go's `time.isLeap`. -/
def isLeapYear (y : Nat) : Bool :=
  y % 4 = 0 && (y % 100 != 0 || y % 400 = 0)

/-- Days in a month, as in Go's `time.daysIn`. -/
def daysIn (y m : Nat) : Nat :=
  if m = 2 then (if isLeapYear y then 29 else 28)
  else if m = 4 || m = 6 || m = 9 || m = 11 then 30
  else 31

def isDigitC (c : Char) : Bool := '0' ≤ c && c ≤ '9'

def digitVal (c : Char) : Nat := c.toNat - 48

/-- Numeric value of a digit string (Go `atoi` on digits). -/
def digitsVal (l : List Char) : Nat :=
  l.foldl (fun a c => 10 * a + digitVal c) 0

/-- Go `time.Parse("2006-01-02", s)` at day resolution: the input must
be exactly `DDDD-DD-DD` with decimal digits, and the month and day
must be in range (Go's parse reports "month out of range" / "day out
of range" otherwise). -/
def parseGoDate (s : Str) : Option Date :=
  if s.length = 10 ∧ (s.take 4).all isDigitC = true ∧ s[4]? = some '-' ∧
     ((s.drop 5).take 2).all isDigitC = true ∧ s[7]? = some '-' ∧
     ((s.drop 8).take 2).all isDigitC = true then
    let y := digitsVal (s.take 4)
    let m := digitsVal ((s.drop 5).take 2)
    let d := digitsVal ((s.drop 8).take 2)
    if 1 ≤ m ∧ m ≤ 12 ∧ 1 ≤ d ∧ d ≤ daysIn y m then
      some ⟨y, m, d⟩
    else none
  else none

/-! ## The decoder (parseNoteFromContent, main.go lines 248-314) -/

/-- Filename-derived title, as computed in parseNoteFromContent: the
fields after the date are rejoined with `"-"`, the trailing `".md"` is
stripped, and every hyphen becomes a space. -/
def filenameTitle (f : Str) : Str :=
  unslugify (trimSuffix (".md").data (List.intercalate ['-'] ((f.splitOn '-').drop 3)))

/-- The date string `parts[0] ++ "-" ++ parts[1] ++ "-" ++ parts[2]`
reassembled by parseNoteFromContent (meaningful only when the
filename has at least 4 hyphen-separated fields). -/
def filenameDateStr (f : Str) : Str :=
  match f.splitOn '-' with
  | p0 :: p1 :: p2 :: _ => p0 ++ '-' :: (p1 ++ '-' :: p2)
  | _ => []

/-- Filename parsing phase of parseNoteFromContent (lines 252-272):
fewer than 4 hyphen-separated fields or an unparseable date is a
failure; otherwise the creation date and the filename-derived title
are produced. -/
def parseFilename (f : Str) : Option (Date × Str) :=
  match f.splitOn '-' with
  | _ :: _ :: _ :: _ :: _ =>
    match parseGoDate (filenameDateStr f) with
    | none => none
    | some dt => some (dt, filenameTitle f)
  | _ => none

/-- Mutable scanning state of the line loop in parseNoteFromContent:
`foundTags`, `note.Tags` (Go `nil` is `[]`), and the content builder. -/
structure ScanState where
  foundTags : Bool
  tags : List Str
  content : Str
deriving DecidableEq, Repr

/-- One iteration of the `for scanner.Scan()` loop (lines 290-304). -/
def scanLine (st : ScanState) (l : Str) : ScanState :=
  if st.foundTags = false ∧ (("Tags: ").data).isPrefixOf l then
    { st with foundTags := true, tags := splitCommaSpace (l.drop 6) }
  else
    { st with content := st.content ++ l ++ ['\n'] }

/-- The whole line loop, over the lines after the title line. -/
def scanBody (ls : List Str) : ScanState :=
  ls.foldl scanLine ⟨false, [], []⟩

/-- parseNoteFromContent (lines 248-314): parse the filename, then the
document body.  The first line, when it starts with `"# "`, provides
the title; the fallback to the filename-derived title happens when the
scanned title is empty. -/
def parseNoteFromContent (content : Str) (filename : Str) : Option Note :=
  match parseFilename filename with
  | none => none
  | some (created, fnTitle) =>
    let lines := goLines content
    let docTitle :=
      match lines with
      | [] => []
      | l :: _ => if (("# ").data).isPrefixOf l then l.drop 2 else []
    let st := scanBody (lines.drop 1)
    some { title := if docTitle = [] then fnTitle else docTitle
           tags := st.tags
           content := st.content
           created := created }

/-! ## The catalog (listNotes and the sort, main.go lines 206-245) -/

/-- listNotes' per-file loop, over a directory listing supplied by the
file-system collaborator: each entry is a base filename together with
`some` contents, or `none` when reading the file fails.  Unreadable
and unparseable files are skipped. -/
def listNotes (files : List (Str × Option Str)) : List Note :=
  files.filterMap fun f => f.2.bind fun c => parseNoteFromContent c f.1

/-- listNotes including the directory-enumeration phase: a failed
`filepath.Glob` is returned to the caller as an error (lines 211-214),
a successful enumeration never is. -/
def listNotesResult (globResult : Except Str (List (Str × Option Str))) :
    Except Str (List Note) :=
  match globResult with
  | Except.error e => Except.error (("failed to list files: ").data ++ e)
  | Except.ok files => Except.ok (listNotes files)

/-- Strict lexicographic order on dates; `a.Created.After(b.Created)`
for midnight-UTC instants is `dateLtB b a`. -/
def dateLtB (a b : Date) : Bool :=
  a.year < b.year ||
  (a.year = b.year && (a.month < b.month ||
    (a.month = b.month && a.day < b.day)))

/-- ASCII lowercasing, the restriction of Go `strings.ToLower` to the
ASCII titles considered here. -/
def lowerChar (c : Char) : Char :=
  if 'A' ≤ c ∧ c ≤ 'Z' then Char.ofNat (c.toNat + 32) else c

def lowerStr (s : Str) : Str := s.map lowerChar

/-- Go string `<`: lexicographic byte order, which equals lexicographic
code-point order because UTF-8 is order-preserving. -/
def strLtB : Str → Str → Bool
  | [], [] => false
  | [], _ :: _ => true
  | _ :: _, [] => false
  | a :: as, b :: bs => a < b || (a = b && strLtB as bs)

/-- The comparator passed to sort.Slice in sortNotesByDateAndTitle
(lines 236-245). -/
def noteLess (a b : Note) : Bool :=
  if a.created ≠ b.created then dateLtB b.created a.created
  else strLtB (lowerStr a.title) (lowerStr b.title)

/-- Insert into a list sorted by `noteLess`. -/
def insertNote (n : Note) : List Note → List Note
  | [] => [n]
  | m :: ms => if noteLess n m then n :: m :: ms else m :: insertNote n ms

/-- sortNotesByDateAndTitle: `sort.Slice` with the `noteLess`
comparator, modelled as a comparison sort (the source's sort is
unstable; on the key-distinct inputs of the claims all comparison
sorts agree). -/
def sortNotesByDateAndTitle (ns : List Note) : List Note :=
  ns.foldr insertNote []

/-! ## The file-system collaborator used by saveNote -/

/-- `ioutil.WriteFile`: create the file or truncate an existing one,
on a store of (filename, contents) pairs. -/
def writeFile (store : List (Str × Str)) (name content : Str) : List (Str × Str) :=
  if store.any (fun e => e.1 = name) then
    store.map fun e => if e.1 = name then (name, content) else e
  else store ++ [(name, content)]

/-- The file-writing step of saveNote (lines 158-176): encode and
write; never an error when the write collaborator succeeds. -/
def saveNote (store : List (Str × Str)) (n : Note) : List (Str × Str) :=
  writeFile store (encodeFileName n) (encodeContent n)

/-! ## Specification-side helpers (used to state claims) -/

/-- Each line followed by a newline, concatenated. -/
def joinLines (ls : List Str) : Str :=
  ls.foldr (fun l acc => l ++ '\n' :: acc) []

/-- Remove only the first line carrying the `"Tags: "` marker. -/
def removeFirstTagsLine : List Str → List Str
  | [] => []
  | l :: ls => if (("Tags: ").data).isPrefixOf l then ls else l :: removeFirstTagsLine ls

/-- The first line carrying the `"Tags: "` marker, if any. -/
def findTagsLine : List Str → Option Str
  | [] => none
  | l :: ls => if (("Tags: ").data).isPrefixOf l then some l else findTagsLine ls

/-- The document-derived title: the remainder of the first line when it
carries the `"# "` marker, and `""` otherwise (also when the document
is empty). -/
def docTitleOf (c : Str) : Str :=
  match goLines c with
  | [] => []
  | l :: _ => if (("# ").data).isPrefixOf l then l.drop 2 else []

/-! ## Concrete fixtures used by the claims -/

/-- A hyphen-free-titled note for the round-trip claims. -/
def rtNote : Note :=
  ⟨("My Note").data, [("x").data], ("body").data, ⟨2024, 1, 2⟩⟩

/-- A well-formed note file (name and contents) for the catalog claims. -/
def goodFile : Str × Option Str :=
  (("2024-01-02-Alpha.md").data, some (("# Alpha\n\nTags: x\n\nbody\n").data))

/-- A note file whose name has an unparseable date (month 13). -/
def badFile : Str × Option Str :=
  (("2024-13-02-Bad.md").data, some (("# Bad\n").data))

/-- What decoding `goodFile` produces. -/
def goodNote : Note :=
  ⟨("Alpha").data, [("x").data], '\n' :: '\n' :: ("body\n").data, ⟨2024, 1, 2⟩⟩

def bananaNote : Note := ⟨("Banana").data, [], [], ⟨2024, 1, 2⟩⟩

def appleNote : Note := ⟨("Apple").data, [], [], ⟨2024, 1, 2⟩⟩

def zebraNote : Note := ⟨("Zebra").data, [], [], ⟨2024, 1, 3⟩⟩

/-- Title `"a b"`: collides with `"a-b"` on the same date. -/
def abNote1 : Note := ⟨("a b").data, [("t1").data], ("c1").data, ⟨2024, 1, 2⟩⟩

/-- Title `"a-b"`: collides with `"a b"` on the same date. -/
def abNote2 : Note := ⟨("a-b").data, [], ("c2").data, ⟨2024, 1, 2⟩⟩

/-- Two notes sharing date and title, differing in tags and content. -/
def dupNote1 : Note := ⟨("Dup").data, [("x").data], ("c1").data, ⟨2024, 1, 2⟩⟩

/-- Two notes sharing date and title, differing in tags and content. -/
def dupNote2 : Note := ⟨("Dup").data, [], ("c2").data, ⟨2024, 1, 2⟩⟩

/-- A note with no tags, for the empty-tag-sequence claim. -/
def noTagsNote : Note := ⟨("Plain").data, [], ("text").data, ⟨2024, 1, 2⟩⟩

/-! ## Lemmas: decimal formatting -/

theorem digitVal_digitC {k : Nat} (h : k < 10) : digitVal (digitC k) = k := by
  interval_cases k <;> decide

theorem isDigitC_digitC {k : Nat} (h : k < 10) : isDigitC (digitC k) = true := by
  interval_cases k <;> decide

theorem digitsVal_append (l : List Char) (c : Char) :
    digitsVal (l ++ [c]) = 10 * digitsVal l + digitVal c := by
  simp [digitsVal, List.foldl_append]

theorem natDigitsRevGo_val :
    ∀ fuel n, n ≤ fuel → digitsVal ((natDigitsRevGo fuel n).reverse) = n := by
  intro fuel
  induction fuel with
  | zero => intro n hn; interval_cases n; decide
  | succ f ih =>
    intro n hn
    by_cases h0 : n = 0
    · subst h0; simp [natDigitsRevGo]; decide
    · have hdiv : n / 10 ≤ f := by omega
      simp only [natDigitsRevGo, if_neg h0, List.reverse_cons]
      rw [digitsVal_append, ih _ hdiv, digitVal_digitC (Nat.mod_lt _ (by norm_num))]
      omega

theorem natDigitsRevGo_len :
    ∀ fuel n w, n < 10 ^ w → (natDigitsRevGo fuel n).length ≤ w := by
  intro fuel
  induction fuel with
  | zero => intro n w _; simp [natDigitsRevGo]
  | succ f ih =>
    intro n w hw
    by_cases h0 : n = 0
    · subst h0; simp [natDigitsRevGo]
    · cases w with
      | zero => simp at hw; omega
      | succ w' =>
        have hdiv : n / 10 < 10 ^ w' := by
          rw [Nat.div_lt_iff_lt_mul (by norm_num)]
          calc n < 10 ^ (w' + 1) := hw
          _ = 10 ^ w' * 10 := by ring
        simp only [natDigitsRevGo, if_neg h0, List.length_cons]
        have := ih (n / 10) w' hdiv
        omega

theorem natDigitsRevGo_digits :
    ∀ fuel n c, c ∈ natDigitsRevGo fuel n → isDigitC c = true := by
  intro fuel
  induction fuel with
  | zero => intro n c hc; simp [natDigitsRevGo] at hc
  | succ f ih =>
    intro n c hc
    by_cases h0 : n = 0
    · subst h0; simp [natDigitsRevGo] at hc
    · simp only [natDigitsRevGo, if_neg h0, List.mem_cons] at hc
      rcases hc with rfl | hc
      · exact isDigitC_digitC (Nat.mod_lt _ (by norm_num))
      · exact ih _ _ hc

theorem natDigits_len {n w : Nat} (hw : 1 ≤ w) (h : n < 10 ^ w) :
    (natDigits n).length ≤ w := by
  unfold natDigits
  split
  · simpa using hw
  · simpa [natDigitsRev] using natDigitsRevGo_len n n w h

theorem natDigits_digits {n : Nat} {c : Char} (hc : c ∈ natDigits n) :
    isDigitC c = true := by
  unfold natDigits at hc
  split at hc
  · simp at hc; subst hc; decide
  · rw [List.mem_reverse] at hc
    exact natDigitsRevGo_digits _ _ _ hc

theorem digitsVal_natDigits (n : Nat) : digitsVal (natDigits n) = n := by
  unfold natDigits
  split
  · subst n; decide
  · exact natDigitsRevGo_val n n le_rfl

theorem digitsVal_replicate_zero_append (k : Nat) (l : List Char) :
    digitsVal (List.replicate k '0' ++ l) = digitsVal l := by
  induction k with
  | zero => simp
  | succ k ih =>
    simpa [digitsVal, List.replicate_succ, digitVal] using ih

theorem fmtPad_length {w n : Nat} (hw : 1 ≤ w) (h : n < 10 ^ w) :
    (fmtPad w n).length = w := by
  have h1 : (natDigits n).length ≤ w := natDigits_len hw h
  simp [fmtPad]
  omega

theorem fmtPad_digits {w n : Nat} {c : Char} (hc : c ∈ fmtPad w n) :
    isDigitC c = true := by
  unfold fmtPad at hc
  rcases List.mem_append.1 hc with hc | hc
  · rw [List.eq_of_mem_replicate hc]; decide
  · exact natDigits_digits hc

theorem digitsVal_fmtPad (w n : Nat) : digitsVal (fmtPad w n) = n := by
  rw [fmtPad, digitsVal_replicate_zero_append, digitsVal_natDigits]

theorem hyphen_not_mem_fmtPad {w n : Nat} : '-' ∉ fmtPad w n := by
  intro h
  have := fmtPad_digits h
  simp [isDigitC] at this

theorem all_isDigitC_fmtPad (w n : Nat) : (fmtPad w n).all isDigitC = true := by
  rw [List.all_eq_true]
  intro c hc
  exact fmtPad_digits hc

/-! ## Lemmas: parsing the encoded date -/

theorem parseGoDate_encode {A B C : Str}
    (hA : A.length = 4) (hB : B.length = 2) (hC : C.length = 2)
    (dA : A.all isDigitC = true) (dB : B.all isDigitC = true) (dC : C.all isDigitC = true)
    (hm1 : 1 ≤ digitsVal B) (hm2 : digitsVal B ≤ 12)
    (hd1 : 1 ≤ digitsVal C) (hd2 : digitsVal C ≤ daysIn (digitsVal A) (digitsVal B)) :
    parseGoDate (A ++ '-' :: (B ++ '-' :: C)) =
      some ⟨digitsVal A, digitsVal B, digitsVal C⟩ := by
  have hlen : (A ++ '-' :: (B ++ '-' :: C)).length = 10 := by
    simp [hA, hB, hC]
  have htake4 : (A ++ '-' :: (B ++ '-' :: C)).take 4 = A := by
    rw [← hA]; exact List.take_left A _
  have hget4 : (A ++ '-' :: (B ++ '-' :: C))[4]? = some '-' := by
    rw [List.getElem?_append_right (by omega)]
    simp [hA]
  have hdrop5 : (A ++ '-' :: (B ++ '-' :: C)).drop 5 = B ++ '-' :: C := by
    have hs : A ++ '-' :: (B ++ '-' :: C) = (A ++ ['-']) ++ (B ++ '-' :: C) := by simp
    have h5 : (5 : Nat) = (A ++ ['-']).length := by simp [hA]
    rw [hs, h5]; exact List.drop_left _ _
  have htakeB : (B ++ '-' :: C).take 2 = B := by
    rw [← hB]; exact List.take_left B _
  have hget7 : (A ++ '-' :: (B ++ '-' :: C))[7]? = some '-' := by
    have hs : A ++ '-' :: (B ++ '-' :: C) = (A ++ '-' :: B) ++ '-' :: C := by simp
    rw [hs, List.getElem?_append_right (by simp [hA, hB])]
    simp [hA, hB]
  have hdrop8 : (A ++ '-' :: (B ++ '-' :: C)).drop 8 = C := by
    have hs : A ++ '-' :: (B ++ '-' :: C) = (A ++ '-' :: (B ++ ['-'])) ++ C := by simp
    have h8 : (8 : Nat) = (A ++ '-' :: (B ++ ['-'])).length := by simp [hA, hB]
    rw [hs, h8]; exact List.drop_left _ _
  have htakeC : C.take 2 = C := by
    rw [← hC]; exact List.take_length C
  rw [parseGoDate]
  rw [if_pos (by exact ⟨hlen, by rw [htake4]; exact dA, hget4,
        by rw [hdrop5, htakeB]; exact dB, hget7,
        by rw [hdrop8, htakeC]; exact dC⟩)]
  simp only [htake4, hdrop5, htakeB, hdrop8, htakeC]
  rw [if_pos (by exact ⟨hm1, hm2, hd1, hd2⟩)]

theorem daysIn_le_31 (y m : Nat) : daysIn y m ≤ 31 := by
  unfold daysIn
  split
  · split <;> norm_num
  · split <;> norm_num

theorem parseGoDate_fmtPad {y m d : Nat} (hy : y ≤ 9999) (hm1 : 1 ≤ m) (hm2 : m ≤ 12)
    (hd1 : 1 ≤ d) (hd2 : d ≤ daysIn y m) :
    parseGoDate (fmtPad 4 y ++ '-' :: (fmtPad 2 m ++ '-' :: fmtPad 2 d)) =
      some ⟨y, m, d⟩ := by
  have e4 : (10 : Nat) ^ 4 = 10000 := by norm_num
  have e2 : (10 : Nat) ^ 2 = 100 := by norm_num
  have hd31 := daysIn_le_31 y m
  have hA := @fmtPad_length 4 y (by norm_num) (by omega)
  have hB := @fmtPad_length 2 m (by norm_num) (by omega)
  have hC := @fmtPad_length 2 d (by norm_num) (by omega)
  have h := parseGoDate_encode hA hB hC (all_isDigitC_fmtPad 4 y)
      (all_isDigitC_fmtPad 2 m) (all_isDigitC_fmtPad 2 d)
      (by rw [digitsVal_fmtPad]; exact hm1) (by rw [digitsVal_fmtPad]; exact hm2)
      (by rw [digitsVal_fmtPad]; exact hd1)
      (by rw [digitsVal_fmtPad, digitsVal_fmtPad, digitsVal_fmtPad]; exact hd2)
  rw [h]
  simp [digitsVal_fmtPad]

/-! ## Lemmas: line scanning -/

theorem goLines_newline (rest : Str) : goLines ('\n' :: rest) = [] :: goLines rest := by
  cases rest with
  | nil => rfl
  | cons y t => simp [goLines]

theorem goLines_cons_ne {x : Char} (s : Str) (hx1 : x ≠ '\n') (hx2 : x ≠ '\r') :
    goLines (x :: s) =
      match goLines s with
      | [] => [[x]]
      | l :: ls => (x :: l) :: ls := by
  cases s with
  | nil => simp [goLines, hx2]
  | cons y t => simp [goLines, hx1, hx2]

theorem goLines_ne_nil (c : Char) (t : Str) : goLines (c :: t) ≠ [] := by
  intro h
  rw [goLines.eq_def] at h
  split at h
  · simp_all
  · simp_all
  · simp_all
  · split at h
    · split at h <;> simp_all
    · simp_all

theorem goLines_eq_nil_iff (s : Str) : goLines s = [] ↔ s = [] := by
  cases s with
  | nil => simp [goLines]
  | cons c t => simp [goLines_ne_nil]

theorem joinLines_nil : joinLines [] = [] := rfl

theorem joinLines_cons (l : Str) (ls : List Str) :
    joinLines (l :: ls) = l ++ '\n' :: joinLines ls := rfl

theorem goLines_append {a : Str} (hn : '\n' ∉ a) (hr : '\r' ∉ a) (b : Str) :
    goLines (a ++ '\n' :: b) = a :: goLines b := by
  induction a with
  | nil => simpa using goLines_newline b
  | cons x a ih =>
    have hx1 : x ≠ '\n' := fun h => hn (h ▸ List.mem_cons_self x a)
    have hx2 : x ≠ '\r' := fun h => hr (h ▸ List.mem_cons_self x a)
    have ihe := ih (fun h => hn (List.mem_cons_of_mem x h))
      (fun h => hr (List.mem_cons_of_mem x h))
    rw [List.cons_append, goLines_cons_ne _ hx1 hx2, ihe]

theorem joinLines_goLines {s : Str} (hr : '\r' ∉ s) :
    joinLines (goLines s) =
      s ++ (if s.getLast? = some '\n' ∨ s = [] then [] else ['\n']) := by
  induction s with
  | nil => simp [goLines, joinLines]
  | cons c t ih =>
    have hc : c ≠ '\r' := fun h => hr (h ▸ List.mem_cons_self c t)
    have iht := ih (fun h => hr (List.mem_cons_of_mem c h))
    by_cases hcn : c = '\n'
    · subst hcn
      rw [goLines_newline, joinLines_cons]
      cases t with
      | nil => simp [goLines, joinLines]
      | cons y u =>
        rw [iht]
        simp [List.getLast?_cons_cons]
    · rw [goLines_cons_ne t hcn hc]
      cases hgl : goLines t with
      | nil =>
        have ht : t = [] := (goLines_eq_nil_iff t).1 hgl
        subst ht
        simp [joinLines, hcn]
      | cons l ls =>
        have ht : t ≠ [] := by
          intro h; subst h; simp [goLines] at hgl
        have hjoin : joinLines ((c :: l) :: ls) = c :: joinLines (l :: ls) := by
          simp [joinLines_cons]
        rw [hjoin, ← hgl, iht]
        cases t with
        | nil => exact absurd rfl ht
        | cons y u =>
          simp [List.getLast?_cons_cons]

/-! ## Lemmas: the tag-scanning loop -/

theorem foldl_scanLine_found :
    ∀ (ls : List Str) (t0 : List Str) (c0 : Str),
      List.foldl scanLine ⟨true, t0, c0⟩ ls = ⟨true, t0, c0 ++ joinLines ls⟩ := by
  intro ls
  induction ls with
  | nil => intro t0 c0; simp [joinLines]
  | cons l ls ih =>
    intro t0 c0
    rw [List.foldl_cons]
    have e1 : scanLine ⟨true, t0, c0⟩ l = ⟨true, t0, c0 ++ l ++ ['\n']⟩ := by
      simp [scanLine]
    rw [e1, ih, joinLines_cons]
    simp [List.append_assoc]

theorem foldl_scanLine_notfound :
    ∀ (ls : List Str) (t0 : List Str) (c0 : Str),
      List.foldl scanLine ⟨false, t0, c0⟩ ls =
        ⟨(findTagsLine ls).isSome,
         (match findTagsLine ls with
          | none => t0
          | some l => splitCommaSpace (l.drop 6)),
         c0 ++ joinLines (removeFirstTagsLine ls)⟩ := by
  intro ls
  induction ls with
  | nil => intro t0 c0; simp [findTagsLine, removeFirstTagsLine, joinLines]
  | cons l ls ih =>
    intro t0 c0
    rw [List.foldl_cons]
    by_cases hp : (("Tags: ").data).isPrefixOf l = true
    · have e1 : scanLine ⟨false, t0, c0⟩ l = ⟨true, splitCommaSpace (l.drop 6), c0⟩ := by
        simp [scanLine, hp]
      rw [e1, foldl_scanLine_found]
      simp [findTagsLine, removeFirstTagsLine, hp]
    · have e1 : scanLine ⟨false, t0, c0⟩ l = ⟨false, t0, c0 ++ l ++ ['\n']⟩ := by
        simp [scanLine, hp]
      rw [e1, ih]
      simp [findTagsLine, removeFirstTagsLine, hp, joinLines_cons, List.append_assoc]

theorem scanBody_eq (ls : List Str) :
    scanBody ls =
      ⟨(findTagsLine ls).isSome,
       (match findTagsLine ls with
        | none => []
        | some l => splitCommaSpace (l.drop 6)),
       joinLines (removeFirstTagsLine ls)⟩ := by
  have h := foldl_scanLine_notfound ls [] []
  simpa [scanBody] using h

/-! ## Lemmas: splitting and joining tag lists -/

theorem splitCommaSpace_ne_nil (s : Str) : splitCommaSpace s ≠ [] := by
  rw [splitCommaSpace.eq_def]
  split
  · simp
  · simp
  · split
    · simp
    · split <;> simp

theorem intercalate_cons₂ (sep a b : Str) (l : List Str) :
    List.intercalate sep (a :: b :: l) = a ++ sep ++ List.intercalate sep (b :: l) := by
  simp [List.intercalate, List.intersperse_cons_cons]

theorem intercalate_one (sep a : Str) : List.intercalate sep [a] = a := by
  simp [List.intercalate]

theorem splitCommaSpace_single {t : Str} (h : hasCommaSpace t = false) :
    splitCommaSpace t = [t] := by
  induction t with
  | nil => simp [splitCommaSpace]
  | cons c1 t ih =>
    cases t with
    | nil => simp [splitCommaSpace]
    | cons c2 rest =>
      have hns : ¬(c1 = ',' ∧ c2 = ' ') := by
        intro hcs
        rw [hasCommaSpace, if_pos hcs] at h
        simp at h
      rw [hasCommaSpace, if_neg hns] at h
      rw [splitCommaSpace, if_neg hns, ih h]

theorem splitCommaSpace_sep_append {t : Str} (h : hasCommaSpace t = false) (r : Str) :
    splitCommaSpace (t ++ ',' :: ' ' :: r) = t :: splitCommaSpace r := by
  induction t with
  | nil =>
    rw [List.nil_append, splitCommaSpace, if_pos ⟨rfl, rfl⟩]
  | cons c1 t ih =>
    cases t with
    | nil =>
      have hne : ¬(c1 = ',' ∧ ',' = ' ') := by
        intro hcs
        exact absurd hcs.2 (by decide)
      rw [List.cons_append, List.nil_append, splitCommaSpace, if_neg hne]
      rw [splitCommaSpace, if_pos ⟨rfl, rfl⟩]
    | cons c2 rest =>
      have hns : ¬(c1 = ',' ∧ c2 = ' ') := by
        intro hcs
        rw [hasCommaSpace, if_pos hcs] at h
        simp at h
      rw [hasCommaSpace, if_neg hns] at h
      have iht := ih h
      rw [List.cons_append, List.cons_append, splitCommaSpace, if_neg hns]
      rw [show c2 :: (rest ++ ',' :: ' ' :: r) = (c2 :: rest) ++ ',' :: ' ' :: r from rfl]
      rw [iht]

theorem splitCommaSpace_intercalate {ts : List Str} (hne : ts ≠ [])
    (h : ∀ t ∈ ts, hasCommaSpace t = false) :
    splitCommaSpace (List.intercalate (", ").data ts) = ts := by
  induction ts with
  | nil => exact absurd rfl hne
  | cons t ts ih =>
    cases ts with
    | nil =>
      rw [intercalate_one]
      exact splitCommaSpace_single (h t (List.mem_cons_self t []))
    | cons t2 ts2 =>
      rw [intercalate_cons₂]
      have e1 : (", ").data = [',', ' '] := rfl
      rw [e1]
      have e2 : t ++ [',', ' '] ++ List.intercalate [',', ' '] (t2 :: ts2)
          = t ++ ',' :: ' ' :: List.intercalate [',', ' '] (t2 :: ts2) := by
        simp
      rw [e2, splitCommaSpace_sep_append (h t (List.mem_cons_self t _))]
      rw [show List.intercalate [',', ' '] (t2 :: ts2) = List.intercalate (", ").data (t2 :: ts2) from rfl]
      rw [ih (by simp) (fun x hx => h x (List.mem_cons_of_mem t hx))]

theorem mem_intercalate {c : Char} {sep : Str} {ts : List Str}
    (hc : c ∈ List.intercalate sep ts) : c ∈ sep ∨ ∃ t ∈ ts, c ∈ t := by
  induction ts with
  | nil => simp [List.intercalate] at hc
  | cons t ts ih =>
    cases ts with
    | nil =>
      rw [intercalate_one] at hc
      exact Or.inr ⟨t, List.mem_cons_self t _, hc⟩
    | cons t2 ts2 =>
      rw [intercalate_cons₂] at hc
      rcases List.mem_append.1 hc with hc | hc
      · rcases List.mem_append.1 hc with hc | hc
        · exact Or.inr ⟨t, List.mem_cons_self t _, hc⟩
        · exact Or.inl hc
      · rcases ih hc with hc | ⟨x, hx, hcx⟩
        · exact Or.inl hc
        · exact Or.inr ⟨x, List.mem_cons_of_mem t hx, hcx⟩

/-! ## Lemmas: decoding an encoded note -/

theorem splitOn_append_cons {c : Char} {A : Str} (h : c ∉ A) (b : Str) :
    (A ++ c :: b).splitOn c = A :: b.splitOn c := by
  unfold List.splitOn
  refine List.splitOnP_first _ A ?_ c (by simp) b
  intro x hx
  simp only [beq_iff_eq]
  intro e
  exact h (e ▸ hx)

theorem trimSuffix_append (suf l : Str) : trimSuffix suf (l ++ suf) = l := by
  unfold trimSuffix
  rw [if_pos (List.isSuffixOf_iff_suffix.2 (List.suffix_append l suf))]
  simp

theorem splitOn_encodeFileName (n : Note) :
    (encodeFileName n).splitOn '-' =
      fmtPad 4 n.created.year :: fmtPad 2 n.created.month :: fmtPad 2 n.created.day ::
        (slugify n.title ++ (".md").data).splitOn '-' := by
  unfold encodeFileName
  rw [splitOn_append_cons hyphen_not_mem_fmtPad,
      splitOn_append_cons hyphen_not_mem_fmtPad,
      splitOn_append_cons hyphen_not_mem_fmtPad]

theorem parseFilename_encode {n : Note} (hy : n.created.year ≤ 9999)
    (hm1 : 1 ≤ n.created.month) (hm2 : n.created.month ≤ 12)
    (hd1 : 1 ≤ n.created.day)
    (hd2 : n.created.day ≤ daysIn n.created.year n.created.month) :
    parseFilename (encodeFileName n) = some (n.created, unslugify (slugify n.title)) := by
  have hsplit := splitOn_encodeFileName n
  have hdate : filenameDateStr (encodeFileName n) =
      fmtPad 4 n.created.year ++ '-' ::
        (fmtPad 2 n.created.month ++ '-' :: fmtPad 2 n.created.day) := by
    rw [filenameDateStr, hsplit]
  have htitle : filenameTitle (encodeFileName n) = unslugify (slugify n.title) := by
    rw [filenameTitle, hsplit]
    have hdrop : (fmtPad 4 n.created.year :: fmtPad 2 n.created.month ::
        fmtPad 2 n.created.day :: (slugify n.title ++ (".md").data).splitOn '-').drop 3
        = (slugify n.title ++ (".md").data).splitOn '-' := rfl
    rw [hdrop, List.intercalate_splitOn, trimSuffix_append]
  have hgo : parseGoDate (filenameDateStr (encodeFileName n)) = some n.created := by
    rw [hdate, parseGoDate_fmtPad hy hm1 hm2 hd1 hd2]
  cases hrest : (slugify n.title ++ (".md").data).splitOn '-' with
  | nil => exact absurd hrest (List.splitOnP_ne_nil _ _)
  | cons r1 rr =>
    rw [parseFilename, hsplit, hrest]
    rw [hrest] at hsplit
    simp only [hgo, htitle]

theorem goLines_encodeContent {n : Note} (ht1 : '\n' ∉ n.title) (ht2 : '\r' ∉ n.title)
    (htags : ∀ t ∈ n.tags, '\n' ∉ t ∧ '\r' ∉ t) :
    goLines (encodeContent n) =
      (("# ").data ++ n.title) :: [] ::
        (("Tags: ").data ++ List.intercalate (", ").data n.tags) :: [] ::
        goLines n.content := by
  have hJn : '\n' ∉ List.intercalate (", ").data n.tags := by
    intro hc
    rcases mem_intercalate hc with hc | ⟨t, htm, hct⟩
    · simp at hc
    · exact (htags t htm).1 hct
  have hJr : '\r' ∉ List.intercalate (", ").data n.tags := by
    intro hc
    rcases mem_intercalate hc with hc | ⟨t, htm, hct⟩
    · simp at hc
    · exact (htags t htm).2 hct
  have hTn : '\n' ∉ ("# ").data ++ n.title := by
    intro hc
    rcases List.mem_append.1 hc with hc | hc
    · simp at hc
    · exact ht1 hc
  have hTr : '\r' ∉ ("# ").data ++ n.title := by
    intro hc
    rcases List.mem_append.1 hc with hc | hc
    · simp at hc
    · exact ht2 hc
  have hGn : '\n' ∉ ("Tags: ").data ++ List.intercalate (", ").data n.tags := by
    intro hc
    rcases List.mem_append.1 hc with hc | hc
    · simp at hc
    · exact hJn hc
  have hGr : '\r' ∉ ("Tags: ").data ++ List.intercalate (", ").data n.tags := by
    intro hc
    rcases List.mem_append.1 hc with hc | hc
    · simp at hc
    · exact hJr hc
  have e : encodeContent n =
      (("# ").data ++ n.title) ++ '\n' :: ('\n' ::
        ((("Tags: ").data ++ List.intercalate (", ").data n.tags) ++
          '\n' :: ('\n' :: n.content))) := by
    simp [encodeContent, List.append_assoc]
  rw [e, goLines_append hTn hTr, goLines_newline, goLines_append hGn hGr, goLines_newline]

theorem parse_encode {n : Note} (hti : n.title ≠ [])
    (ht1 : '\n' ∉ n.title) (ht2 : '\r' ∉ n.title)
    (htags : ∀ t ∈ n.tags, '\n' ∉ t ∧ '\r' ∉ t)
    (hy : n.created.year ≤ 9999)
    (hm1 : 1 ≤ n.created.month) (hm2 : n.created.month ≤ 12)
    (hd1 : 1 ≤ n.created.day)
    (hd2 : n.created.day ≤ daysIn n.created.year n.created.month) :
    parseNoteFromContent (encodeContent n) (encodeFileName n) =
      some { title := n.title
             tags := splitCommaSpace (List.intercalate (", ").data n.tags)
             content := '\n' :: '\n' :: joinLines (goLines n.content)
             created := n.created } := by
  have hlines := goLines_encodeContent ht1 ht2 htags
  have hpre1 : (("# ").data).isPrefixOf (("# ").data ++ n.title) = true :=
    List.isPrefixOf_iff_prefix.2 (List.prefix_append _ _)
  have hdrop2 : (("# ").data ++ n.title).drop 2 = n.title := by
    rw [show (2 : Nat) = ("# ").data.length from rfl]
    exact List.drop_left _ _
  have hpre2 : (("Tags: ").data).isPrefixOf ([] : Str) = false := by decide
  have hpre3 : (("Tags: ").data).isPrefixOf
      (("Tags: ").data ++ List.intercalate (", ").data n.tags) = true :=
    List.isPrefixOf_iff_prefix.2 (List.prefix_append _ _)
  have hdrop6 : (("Tags: ").data ++ List.intercalate (", ").data n.tags).drop 6
      = List.intercalate (", ").data n.tags := by
    rw [show (6 : Nat) = ("Tags: ").data.length from rfl]
    exact List.drop_left _ _
  have hfind : findTagsLine ([] ::
        ((("Tags: ").data ++ List.intercalate (", ").data n.tags)) :: [] ::
        goLines n.content)
      = some ((("Tags: ").data ++ List.intercalate (", ").data n.tags)) := by
    rw [findTagsLine, if_neg (by simp [hpre2]), findTagsLine, if_pos (by simp [hpre3])]
  have hrem : removeFirstTagsLine ([] ::
        ((("Tags: ").data ++ List.intercalate (", ").data n.tags)) :: [] ::
        goLines n.content)
      = [] :: [] :: goLines n.content := by
    rw [removeFirstTagsLine, if_neg (by simp [hpre2]),
        removeFirstTagsLine, if_pos (by simp [hpre3])]
  have hscan : scanBody ([] ::
        ((("Tags: ").data ++ List.intercalate (", ").data n.tags)) :: [] ::
        goLines n.content)
      = ⟨true, splitCommaSpace (List.intercalate (", ").data n.tags),
          '\n' :: '\n' :: joinLines (goLines n.content)⟩ := by
    rw [scanBody_eq, hfind, hrem]
    rfl
  unfold parseNoteFromContent
  rw [parseFilename_encode hy hm1 hm2 hd1 hd2]
  simp only [hlines, List.drop_succ_cons, List.drop_zero, hscan]
  have hp : (['#', ' '] : Str).isPrefixOf (['#', ' '] ++ n.title) = true :=
    List.isPrefixOf_iff_prefix.2 (List.prefix_append _ _)
  simp [hp, hti]
/-! ## Lemmas: general decoding shape -/

theorem parseFilename_some_title {f : Str} {v : Date × Str}
    (h : parseFilename f = some v) : v.2 = filenameTitle f := by
  unfold parseFilename at h
  split at h
  · split at h
    · exact absurd h (by simp)
    · injection h with h2
      rw [← h2]
  · exact absurd h (by simp)

theorem parseNote_none_iff (c f : Str) :
    parseNoteFromContent c f = none ↔ parseFilename f = none := by
  unfold parseNoteFromContent
  cases h : parseFilename f with
  | none => simp
  | some v =>
    cases v with
    | mk dt fnT => simp

theorem parseNote_eq {c f : Str} {dt : Date} {fnT : Str}
    (hpf : parseFilename f = some (dt, fnT)) :
    parseNoteFromContent c f =
      some { title := if docTitleOf c = [] then fnT else docTitleOf c
             tags := match findTagsLine ((goLines c).drop 1) with
                     | none => []
                     | some l => splitCommaSpace (l.drop 6)
             content := joinLines (removeFirstTagsLine ((goLines c).drop 1))
             created := dt } := by
  unfold parseNoteFromContent
  rw [hpf]
  simp only [scanBody_eq]
  unfold docTitleOf
  cases hl : goLines c with
  | nil => simp [hl]
  | cons l ls => simp [hl]

theorem parseFilename_none_iff (f : Str) :
    parseFilename f = none ↔
      ((f.splitOn '-').length < 4 ∨ parseGoDate (filenameDateStr f) = none) := by
  unfold parseFilename
  cases h : f.splitOn '-' with
  | nil => simp [h]
  | cons p0 t0 =>
    cases t0 with
    | nil => simp [h]
    | cons p1 t1 =>
      cases t1 with
      | nil => simp [h]
      | cons p2 t2 =>
        cases t2 with
        | nil => simp [h]
        | cons p3 t3 =>
          cases hd : parseGoDate (filenameDateStr f) with
          | none => simp [h, hd]
          | some dt => simp [h, hd]

/-! ## Claims -/

/-- C1, counterexample: the round trip as claimed fails on the content
field.  `rtNote` has a hyphen-free title, yet decoding its encoding
returns content `"\n\nbody\n"`, not `"body"`: both separator blank
lines of the document and a normalising trailing newline end up in the
decoded content. -/
theorem c1_roundtrip_counterexample :
    ('-' ∉ rtNote.title) ∧
    (parseNoteFromContent (encodeContent rtNote) (encodeFileName rtNote)).map Note.content
      ≠ some rtNote.content := by
  constructor
  · decide
  · decide

/-- C1, amended: for a note with a non-empty hyphen-free title free of
newlines and carriage returns, a non-empty tag list whose tags contain
no newline, carriage return or `", "`, carriage-return-free content,
and an in-range creation date, decoding the encoding recovers the
title, the tags and the creation date exactly, while the content comes
back as the two separator blank lines followed by the original content
with a trailing newline appended when it was non-empty and
unterminated. -/
theorem c1_roundtrip {n : Note} (_hh : '-' ∉ n.title) (hti : n.title ≠ [])
    (ht1 : '\n' ∉ n.title) (ht2 : '\r' ∉ n.title)
    (htne : n.tags ≠ [])
    (htags : ∀ t ∈ n.tags, '\n' ∉ t ∧ '\r' ∉ t ∧ hasCommaSpace t = false)
    (hc : '\r' ∉ n.content)
    (hy : n.created.year ≤ 9999)
    (hm1 : 1 ≤ n.created.month) (hm2 : n.created.month ≤ 12)
    (hd1 : 1 ≤ n.created.day)
    (hd2 : n.created.day ≤ daysIn n.created.year n.created.month) :
    parseNoteFromContent (encodeContent n) (encodeFileName n) =
      some { title := n.title
             tags := n.tags
             content := '\n' :: '\n' ::
               (n.content ++
                 if n.content.getLast? = some '\n' ∨ n.content = [] then [] else ['\n'])
             created := n.created } := by
  rw [parse_encode hti ht1 ht2 (fun t ht => ⟨(htags t ht).1, (htags t ht).2.1⟩)
      hy hm1 hm2 hd1 hd2]
  rw [splitCommaSpace_intercalate htne (fun t ht => (htags t ht).2.2)]
  rw [joinLines_goLines hc]

/-- Witness for C1 (amended) at the concrete note `rtNote`. -/
theorem c1_roundtrip_witness :
    parseNoteFromContent (encodeContent rtNote) (encodeFileName rtNote) =
      some { title := rtNote.title
             tags := rtNote.tags
             content := '\n' :: '\n' ::
               (rtNote.content ++
                 if rtNote.content.getLast? = some '\n' ∨ rtNote.content = [] then []
                 else ['\n'])
             created := rtNote.created } :=
  c1_roundtrip (by decide) (by decide) (by decide) (by decide) (by decide)
    (by decide) (by decide) (by decide) (by decide) (by decide) (by decide) (by decide)

/-- C2: the encoded filename is the zero-padded 4-digit year, 2-digit
month and 2-digit day joined by hyphens, followed by the slug (the
title with each space turned into a hyphen and nothing else changed)
and `".md"`; the document is the `"# <title>"` line, a blank line, the
`"Tags: "` line with the tags joined by `", "` (present even when the
tag list is empty), a blank line, and the verbatim content.  Encoding
is a total function: it never fails. -/
theorem c2_encode_shape {n : Note} (hy : n.created.year ≤ 9999)
    (hm : n.created.month ≤ 99) (hd : n.created.day ≤ 99) :
    encodeFileName n =
      fmtPad 4 n.created.year ++ '-' ::
        (fmtPad 2 n.created.month ++ '-' ::
          (fmtPad 2 n.created.day ++ '-' :: (slugify n.title ++ (".md").data)))
    ∧ (fmtPad 4 n.created.year).length = 4
    ∧ (∀ c ∈ fmtPad 4 n.created.year, isDigitC c = true)
    ∧ digitsVal (fmtPad 4 n.created.year) = n.created.year
    ∧ (fmtPad 2 n.created.month).length = 2
    ∧ (∀ c ∈ fmtPad 2 n.created.month, isDigitC c = true)
    ∧ digitsVal (fmtPad 2 n.created.month) = n.created.month
    ∧ (fmtPad 2 n.created.day).length = 2
    ∧ (∀ c ∈ fmtPad 2 n.created.day, isDigitC c = true)
    ∧ digitsVal (fmtPad 2 n.created.day) = n.created.day
    ∧ (slugify n.title).length = n.title.length
    ∧ (∀ i : Nat, (slugify n.title)[i]? =
        (n.title[i]?).map fun c => if c = ' ' then '-' else c)
    ∧ encodeContent n =
        ("# ").data ++ n.title ++ ('\n' :: '\n' :: ("Tags: ").data) ++
          List.intercalate (", ").data n.tags ++ ('\n' :: '\n' :: n.content) := by
  have e4 : (10 : Nat) ^ 4 = 10000 := by norm_num
  have e2 : (10 : Nat) ^ 2 = 100 := by norm_num
  refine ⟨rfl, @fmtPad_length 4 n.created.year (by norm_num) (by omega),
    fun c hc => fmtPad_digits hc, digitsVal_fmtPad 4 n.created.year,
    @fmtPad_length 2 n.created.month (by norm_num) (by omega),
    fun c hc => fmtPad_digits hc, digitsVal_fmtPad 2 n.created.month,
    @fmtPad_length 2 n.created.day (by norm_num) (by omega),
    fun c hc => fmtPad_digits hc, digitsVal_fmtPad 2 n.created.day,
    List.length_map _ _, fun i => ?_, rfl⟩
  simp [slugify]

/-- Witness for C2 at the concrete note `rtNote`. -/
theorem c2_encode_shape_witness :
    encodeFileName rtNote =
      fmtPad 4 rtNote.created.year ++ '-' ::
        (fmtPad 2 rtNote.created.month ++ '-' ::
          (fmtPad 2 rtNote.created.day ++ '-' :: (slugify rtNote.title ++ (".md").data)))
    ∧ (fmtPad 4 rtNote.created.year).length = 4
    ∧ (∀ c ∈ fmtPad 4 rtNote.created.year, isDigitC c = true)
    ∧ digitsVal (fmtPad 4 rtNote.created.year) = rtNote.created.year
    ∧ (fmtPad 2 rtNote.created.month).length = 2
    ∧ (∀ c ∈ fmtPad 2 rtNote.created.month, isDigitC c = true)
    ∧ digitsVal (fmtPad 2 rtNote.created.month) = rtNote.created.month
    ∧ (fmtPad 2 rtNote.created.day).length = 2
    ∧ (∀ c ∈ fmtPad 2 rtNote.created.day, isDigitC c = true)
    ∧ digitsVal (fmtPad 2 rtNote.created.day) = rtNote.created.day
    ∧ (slugify rtNote.title).length = rtNote.title.length
    ∧ (∀ i : Nat, (slugify rtNote.title)[i]? =
        (rtNote.title[i]?).map fun c => if c = ' ' then '-' else c)
    ∧ encodeContent rtNote =
        ("# ").data ++ rtNote.title ++ ('\n' :: '\n' :: ("Tags: ").data) ++
          List.intercalate (", ").data rtNote.tags ++ ('\n' :: '\n' :: rtNote.content) :=
  c2_encode_shape (by decide) (by decide) (by decide)

/-- C3: decoding fails exactly when the filename has fewer than 4
hyphen-separated fields or its first three fields do not parse as a
valid calendar date; the document body never causes a failure, and
decoding degrades gracefully: with no usable `"# "` title the decoded
title falls back to the filename-derived one, and with no `"Tags: "`
line the tag list is empty (absent). -/
theorem c3_decode_failure (c f : Str) :
    (parseNoteFromContent c f = none ↔
      ((f.splitOn '-').length < 4 ∨ parseGoDate (filenameDateStr f) = none))
    ∧ (∀ m : Note, parseNoteFromContent c f = some m →
        docTitleOf c = [] → m.title = filenameTitle f)
    ∧ (∀ m : Note, parseNoteFromContent c f = some m →
        findTagsLine ((goLines c).drop 1) = none → m.tags = []) := by
  refine ⟨(parseNote_none_iff c f).trans (parseFilename_none_iff f), ?_, ?_⟩
  · intro m hm hdt
    cases hpf : parseFilename f with
    | none =>
      rw [(parseNote_none_iff c f).2 hpf] at hm
      exact absurd hm (by simp)
    | some v =>
      cases v with
      | mk dt fnT =>
        rw [parseNote_eq hpf] at hm
        injection hm with hm
        subst hm
        show (if docTitleOf c = [] then fnT else docTitleOf c) = filenameTitle f
        rw [if_pos hdt]
        exact parseFilename_some_title hpf
  · intro m hm hft
    cases hpf : parseFilename f with
    | none =>
      rw [(parseNote_none_iff c f).2 hpf] at hm
      exact absurd hm (by simp)
    | some v =>
      cases v with
      | mk dt fnT =>
        rw [parseNote_eq hpf] at hm
        injection hm with hm
        subst hm
        show (match findTagsLine ((goLines c).drop 1) with
              | none => []
              | some l => splitCommaSpace (l.drop 6)) = []
        rw [hft]

/-- Witness for C3: a month-13 filename fails regardless of the body;
a body with no `"# "` line and no `"Tags: "` line decodes with the
filename-derived title and an empty tag list. -/
theorem c3_decode_failure_witness :
    parseNoteFromContent (("# T\n").data) (("2024-13-02-x.md").data) = none
    ∧ (⟨("x").data, [], [], ⟨2024, 1, 2⟩⟩ : Note).title =
        filenameTitle (("2024-01-02-x.md").data)
    ∧ (⟨("x").data, [], [], ⟨2024, 1, 2⟩⟩ : Note).tags = [] :=
  ⟨(c3_decode_failure (("# T\n").data) (("2024-13-02-x.md").data)).1.mpr
      (Or.inr (by decide)),
   (c3_decode_failure (("hello\n").data) (("2024-01-02-x.md").data)).2.1
      ⟨("x").data, [], [], ⟨2024, 1, 2⟩⟩ (by decide) (by decide),
   (c3_decode_failure (("hello\n").data) (("2024-01-02-x.md").data)).2.2
      ⟨("x").data, [], [], ⟨2024, 1, 2⟩⟩ (by decide) (by decide)⟩

/-- C4, counterexample: on the document whose first line is exactly
`"# "` the claim fails: the first line does start with the `"# "`
marker, yet the decoded title is the filename-derived `"foo"`, not the
(empty) remainder of that line -- the code falls back whenever the
scanned title is empty. -/
theorem c4_title_counterexample :
    (("# ").data).isPrefixOf (("# ").data) = true
    ∧ (goLines (("# \nTags: t\n").data)).head? = some (("# ").data)
    ∧ (parseNoteFromContent (("# \nTags: t\n").data)
        (("2024-01-02-foo.md").data)).map Note.title = some (("foo").data)
    ∧ some ((("# ").data).drop 2) ≠ some (("foo").data) := by
  refine ⟨by decide, by decide, by decide, by decide⟩

/-- C4 (amended): the decoded title is the remainder of the first line
when that line starts with `"# "` and the remainder is non-empty;
otherwise (prefix absent, empty document, or empty remainder) it is
the filename-derived title. -/
theorem c4_title_resolution (c f : Str) (m : Note)
    (h : parseNoteFromContent c f = some m) :
    m.title =
      match goLines c with
      | [] => filenameTitle f
      | l :: _ =>
        if (("# ").data).isPrefixOf l ∧ l.drop 2 ≠ [] then l.drop 2
        else filenameTitle f := by
  cases hpf : parseFilename f with
  | none =>
    rw [(parseNote_none_iff c f).2 hpf] at h
    exact absurd h (by simp)
  | some v =>
    cases v with
    | mk dt fnT =>
      have hfn : fnT = filenameTitle f := parseFilename_some_title hpf
      rw [parseNote_eq hpf] at h
      injection h with h
      subst h
      show (if docTitleOf c = [] then fnT else docTitleOf c) = _
      unfold docTitleOf
      cases hl : goLines c with
      | nil => simpa using hfn
      | cons l ls =>
        by_cases hp : (("# ").data).isPrefixOf l = true
        · by_cases hd : l.drop 2 = []
          · simp [hp, hd, hfn]
          · simp [hp, hd]
        · simp [hp, hfn]

/-- Witness for C4 (amended) on a well-formed title line. -/
theorem c4_title_resolution_witness :
    (⟨("Hi").data, [], [], ⟨2024, 1, 2⟩⟩ : Note).title =
      match goLines (("# Hi\n").data) with
      | [] => filenameTitle (("2024-01-02-x.md").data)
      | l :: _ =>
        if (("# ").data).isPrefixOf l ∧ l.drop 2 ≠ [] then l.drop 2
        else filenameTitle (("2024-01-02-x.md").data) :=
  c4_title_resolution (("# Hi\n").data) (("2024-01-02-x.md").data)
    ⟨("Hi").data, [], [], ⟨2024, 1, 2⟩⟩ (by decide)

/-- C5: on a successful decode, only the first `"Tags: "`-marked line
after the title line is consumed as the tag list (split on `", "`);
the content is every line after the title line except that single tags
line -- later `"Tags: "` lines included -- each followed by a newline. -/
theorem c5_tags_and_content (c f : Str) (m : Note)
    (h : parseNoteFromContent c f = some m) :
    m.content = joinLines (removeFirstTagsLine ((goLines c).drop 1))
    ∧ m.tags = (match findTagsLine ((goLines c).drop 1) with
                | none => []
                | some l => splitCommaSpace (l.drop 6)) := by
  cases hpf : parseFilename f with
  | none =>
    rw [(parseNote_none_iff c f).2 hpf] at h
    exact absurd h (by simp)
  | some v =>
    cases v with
    | mk dt fnT =>
      rw [parseNote_eq hpf] at h
      injection h with h
      subst h
      exact ⟨rfl, rfl⟩

/-- Witness for C5 on a document with two `"Tags: "` lines: the first
becomes the tag list, the second stays in the content verbatim. -/
theorem c5_tags_and_content_witness :
    (⟨("T").data, [("a").data, ("b").data], ("Tags: c\nx\n").data,
        ⟨2024, 1, 2⟩⟩ : Note).content =
      joinLines (removeFirstTagsLine
        ((goLines (("# T\nTags: a, b\nTags: c\nx\n").data)).drop 1))
    ∧ (⟨("T").data, [("a").data, ("b").data], ("Tags: c\nx\n").data,
        ⟨2024, 1, 2⟩⟩ : Note).tags =
      (match findTagsLine ((goLines (("# T\nTags: a, b\nTags: c\nx\n").data)).drop 1) with
       | none => []
       | some l => splitCommaSpace (l.drop 6)) :=
  c5_tags_and_content (("# T\nTags: a, b\nTags: c\nx\n").data)
    (("2024-01-02-T.md").data)
    ⟨("T").data, [("a").data, ("b").data], ("Tags: c\nx\n").data, ⟨2024, 1, 2⟩⟩
    (by decide)

/-- C6: a file whose contents cannot be read, or whose name/contents do
not decode, is silently skipped by the catalog: it neither appears in
the result nor aborts the listing; concretely, a directory with one
well-formed note file and one file with a month-13 date in its name
lists exactly the one well-formed note, with no error. -/
theorem c6_skip_policy :
    (∀ (pre post : List (Str × Option Str)) (g : Str × Option Str),
        (g.2 = none ∨ ∀ cont, g.2 = some cont → parseNoteFromContent cont g.1 = none) →
        listNotes (pre ++ g :: post) = listNotes (pre ++ post))
    ∧ listNotesResult (Except.ok [goodFile, badFile]) = Except.ok [goodNote] := by
  constructor
  · intro pre post g hg
    unfold listNotes
    have hnone : (g.2.bind fun cont => parseNoteFromContent cont g.1) = none := by
      rcases hg with hg | hg
      · rw [hg]; rfl
      · cases h2 : g.2 with
        | none => rfl
        | some cont => simp [hg cont h2]
    simp [List.filterMap_append, List.filterMap_cons, hnone]
  · rfl

/-- Witness for C6: an unreadable file is dropped from the listing. -/
theorem c6_skip_policy_witness :
    listNotes [(("x.md").data, none), goodFile] = listNotes [goodFile] :=
  c6_skip_policy.1 [] [goodFile] ((("x.md").data, none)) (Or.inl rfl)

theorem dateLtB_irrefl (d : Date) : dateLtB d d = false := by
  simp [dateLtB]

/-- C7: the catalog comparator orders primarily by creation date
descending (`b < a` on dates makes `a` come first) and breaks ties by
title ascending after case-folding; on the three concrete notes of the
claim the sort returns Zebra, Apple, Banana. -/
theorem c7_sort_order :
    (∀ a b : Note, noteLess a b = true ↔
        (dateLtB b.created a.created = true ∨
          (a.created = b.created ∧ strLtB (lowerStr a.title) (lowerStr b.title) = true)))
    ∧ sortNotesByDateAndTitle [bananaNote, appleNote, zebraNote]
        = [zebraNote, appleNote, bananaNote] := by
  constructor
  · intro a b
    unfold noteLess
    by_cases heq : a.created = b.created
    · rw [if_neg (by simp [heq])]
      constructor
      · intro h
        exact Or.inr ⟨heq, h⟩
      · intro h
        rcases h with h | ⟨h1, h2⟩
        · rw [heq, dateLtB_irrefl] at h
          exact absurd h (by simp)
        · exact h2
    · rw [if_pos heq]
      constructor
      · intro h
        exact Or.inl h
      · intro h
        rcases h with h | ⟨h1, h2⟩
        · exact h
        · exact absurd h1 heq
  · decide

/-- Witness for C7: Zebra (the later date) sorts before Apple. -/
theorem c7_sort_order_witness :
    noteLess zebraNote appleNote = true :=
  (c7_sort_order.1 zebraNote appleNote).mpr (Or.inl (by decide))

/-- C8: a failed directory enumeration is returned to the caller as an
explicit error (the collaborator failure message wrapped in "failed to
list files: "), which is distinct from the empty-directory result of
an empty note list with no error. -/
theorem c8_enumeration (e : Str) :
    listNotesResult (Except.error e) =
      Except.error ((("failed to list files: ").data) ++ e)
    ∧ listNotesResult (Except.ok []) = Except.ok []
    ∧ listNotesResult (Except.error e) ≠ Except.ok [] := by
  refine ⟨rfl, rfl, by simp [listNotesResult]⟩

/-- Witness for C8 at a concrete enumeration failure. -/
theorem c8_enumeration_witness :
    listNotesResult (Except.error (("no such directory").data)) =
      Except.error ((("failed to list files: ").data) ++ ("no such directory").data)
    ∧ listNotesResult (Except.ok []) = Except.ok []
    ∧ listNotesResult (Except.error (("no such directory").data)) ≠ Except.ok [] :=
  c8_enumeration (("no such directory").data)

/-- C9: the encoded filename depends only on the creation date and the
title; the titles `"a b"` and `"a-b"` collide on the same date; saving
twice with the same date and title leaves exactly one file, holding
the second note's document, with no error. -/
theorem c9_filename_identity :
    (∀ n1 n2 : Note, n1.created = n2.created → n1.title = n2.title →
        encodeFileName n1 = encodeFileName n2)
    ∧ encodeFileName abNote1 = encodeFileName abNote2
    ∧ (∀ n1 n2 : Note, n1.created = n2.created → n1.title = n2.title →
        saveNote (saveNote [] n1) n2 = [(encodeFileName n2, encodeContent n2)]) := by
  have hdet : ∀ n1 n2 : Note, n1.created = n2.created → n1.title = n2.title →
      encodeFileName n1 = encodeFileName n2 := by
    intro n1 n2 hc ht
    unfold encodeFileName slugify
    rw [hc, ht]
  refine ⟨hdet, by decide, ?_⟩
  intro n1 n2 hc ht
  have hf := hdet n1 n2 hc ht
  simp [saveNote, writeFile, hf]

/-- Witness for C9 on two notes sharing date and title but differing
in tags and content. -/
theorem c9_filename_identity_witness :
    encodeFileName dupNote1 = encodeFileName dupNote2
    ∧ saveNote (saveNote [] dupNote1) dupNote2 =
        [(encodeFileName dupNote2, encodeContent dupNote2)] :=
  ⟨c9_filename_identity.1 dupNote1 dupNote2 rfl rfl,
   c9_filename_identity.2.2 dupNote1 dupNote2 rfl rfl⟩

/-- C10: encoding a note with no tags produces the bare `"Tags: "`
line, and decoding it yields the one-element tag list containing the
empty string, not an empty list; an empty (absent) tag list arises
exactly when no line after the title line carries the `"Tags: "`
marker. -/
theorem c10_empty_tags :
    (∀ n : Note, n.tags = [] → n.title ≠ [] → '\n' ∉ n.title → '\r' ∉ n.title →
        n.created.year ≤ 9999 → 1 ≤ n.created.month → n.created.month ≤ 12 →
        1 ≤ n.created.day → n.created.day ≤ daysIn n.created.year n.created.month →
        (parseNoteFromContent (encodeContent n) (encodeFileName n)).map Note.tags
          = some [([] : Str)])
    ∧ (∀ (c f : Str) (m : Note), parseNoteFromContent c f = some m →
        (m.tags = [] ↔ findTagsLine ((goLines c).drop 1) = none)) := by
  constructor
  · intro n htags hti ht1 ht2 hy hm1 hm2 hd1 hd2
    rw [parse_encode hti ht1 ht2 (by rw [htags]; intro t ht; simp at ht)
        hy hm1 hm2 hd1 hd2]
    rw [htags]
    rfl
  · intro c f m h
    cases hpf : parseFilename f with
    | none =>
      rw [(parseNote_none_iff c f).2 hpf] at h
      exact absurd h (by simp)
    | some v =>
      cases v with
      | mk dt fnT =>
        rw [parseNote_eq hpf] at h
        injection h with h
        subst h
        show ((match findTagsLine ((goLines c).drop 1) with
               | none => []
               | some l => splitCommaSpace (l.drop 6)) = ([] : List Str))
            ↔ findTagsLine ((goLines c).drop 1) = none
        cases hft : findTagsLine ((goLines c).drop 1) with
        | none => simp
        | some l =>
          simp only
          constructor
          · intro hx
            exact absurd hx (splitCommaSpace_ne_nil _)
          · intro hx
            exact absurd hx (by simp)

/-- Witness for C10 at the concrete tag-free note `noTagsNote`. -/
theorem c10_empty_tags_witness :
    (parseNoteFromContent (encodeContent noTagsNote) (encodeFileName noTagsNote)).map
        Note.tags = some [([] : Str)] :=
  c10_empty_tags.1 noTagsNote rfl (by decide) (by decide) (by decide) (by decide)
    (by decide) (by decide) (by decide) (by decide)

end GitNotes
